import Mathlib

/-!
Shallow embedding of `src/method-dispatch.c` (R7 multiple-dispatch method
resolution core) and proofs of the specification claims.

Modelling conventions:
* R environments that form the method table are modelled as a graph
  `MethodGraph`: node identifiers are `Nat`, and `frames` maps a node id to
  its own frame, an association list from class-name strings to bound
  values.  This representation admits cyclic environment structures, as the
  real R heap does.
* A binding in a table frame (`Entry`) is either a child environment
  (`ENVSXP`), a method closure (`CLOSXP`, identified by a `Nat`), or any
  other kind of value; an unbound symbol is `none` from `lookupFrame`,
  mirroring `Rf_findVarInFrame` returning `R_UnboundValue` (whose `TYPEOF`
  is neither `ENVSXP` nor `CLOSXP`).
* Method resolution results use `Option Nat`: `none` is `R_NilValue`.
-/

namespace MethodDispatch

/-- A value bound in a method-table frame: a child environment (by node id),
a method closure (by method id), or some other R value. -/
inductive Entry where
  | env (id : Nat)
  | clos (m : Nat)
  | other
deriving DecidableEq, Repr

/-- The heap of method-table environments: each node id has a frame mapping
class-name strings to bound entries.  Cycles among nodes are representable. -/
structure MethodGraph where
  frames : Nat → List (String × Entry)

/-- `Rf_findVarInFrame`: look a symbol up in one frame only (no parents). -/
def lookupFrame (frame : List (String × Entry)) (key : String) : Option Entry :=
  match frame with
  | [] => none
  | (k, v) :: rest => if k = key then some v else lookupFrame rest key

mutual

/-- Embedding of `method_rec` (src/method-dispatch.c lines 10-38): walk the
method table guided by the signature, probing each class of
`signature[itr]` in order, then the `ANY` wildcard. -/
def method_rec (g : MethodGraph) (table : Nat) (signature : List (List String))
    (itr : Nat) : Option Nat :=
  if h : signature.length ≤ itr then none
  else
    match probeClasses g table signature itr (signature.getD itr []) (by omega) with
    | some m => some m
    | none =>
      -- ANY fallback (lines 28-35)
      match lookupFrame (g.frames table) "ANY" with
      | some (Entry.env child) => method_rec g child signature (itr + 1)
      | some (Entry.clos m) => some m
      | _ => none
termination_by (signature.length - itr + 1, 0)
decreasing_by
  all_goals simp_wf
  all_goals rw [Prod.lex_iff]
  all_goals simp
  all_goals omega

/-- The `for` loop of `method_rec` (lines 17-26): probe each class name in
order; a child environment is searched recursively, a closure is returned. -/
def probeClasses (g : MethodGraph) (table : Nat) (signature : List (List String))
    (itr : Nat) (classes : List String) (h : itr < signature.length) : Option Nat :=
  match classes with
  | [] => none
  | c :: rest =>
    match lookupFrame (g.frames table) c with
    | some (Entry.env child) =>
      match method_rec g child signature (itr + 1) with
      | some m => some m
      | none => probeClasses g table signature itr rest h
    | some (Entry.clos m) => some m
    | _ => probeClasses g table signature itr rest h
termination_by (signature.length - itr, classes.length + 1)
decreasing_by
  all_goals simp_wf
  all_goals rw [Prod.lex_iff]
  all_goals simp
  all_goals omega

end

mutual

/-- Spec-side resolver, written from the specification's pseudocode (spec
section 4.3): "if i ≥ len(S): return absent; for each class_name c in S[i],
in order: child = lookup(node, c); if child is a node: r = resolve(child, S,
i+1); if r ≠ absent return r; if child is a method: return child; child =
lookup(node, ANY); ...; return absent".  Used only to compare the code's
`method_rec` against the spec's words. -/
def resolve_spec (g : MethodGraph) (node : Nat) (S : List (List String))
    (i : Nat) : Option Nat :=
  if h : S.length ≤ i then none
  else
    match specLoop g node S i (S.getD i []) (by omega) with
    | some r => some r
    | none =>
      match lookupFrame (g.frames node) "ANY" with
      | some (Entry.env child) =>
        match resolve_spec g child S (i + 1) with
        | some r => some r
        | none => none
      | some (Entry.clos m) => some m
      | _ => none
termination_by (S.length - i + 1, 0)
decreasing_by
  all_goals simp_wf
  all_goals rw [Prod.lex_iff]
  all_goals simp
  all_goals omega

/-- The "for each class_name c in S[i], in order" loop of the spec's
pseudocode. -/
def specLoop (g : MethodGraph) (node : Nat) (S : List (List String)) (i : Nat)
    (cs : List String) (h : i < S.length) : Option Nat :=
  match cs with
  | [] => none
  | c :: rest =>
    match lookupFrame (g.frames node) c with
    | some (Entry.env child) =>
      match resolve_spec g child S (i + 1) with
      | some r => some r
      | none => specLoop g node S i rest h
    | some (Entry.clos m) => some m
    | _ => specLoop g node S i rest h
termination_by (S.length - i, cs.length + 1)
decreasing_by
  all_goals simp_wf
  all_goals rw [Prod.lex_iff]
  all_goals simp
  all_goals omega

end

/-- The `@methods` attribute of a generic: either an environment (the root
node of the method table) or some other value (the corrupt case). -/
inductive MethodsAttr where
  | env (table : Nat)
  | nonEnv
deriving DecidableEq, Repr

/-- The pieces of an R7 generic that `method-dispatch.c` reads: its `class`
attribute (for `Rf_inherits`), its `@methods` attribute, its formals, and
its `dispatch_args` attribute. -/
structure Generic where
  klass : List String
  methods : MethodsAttr
  formals : List String
  dispatch_args : List String

/-- Outcome of `method_`: an ordinary return (`R_NilValue` is `ret none`),
an invocation of the never-returning `R7_method_lookup_error`, or the fatal
`Rf_error("Corrupt R7_generic: @methods isn't an environment")`. -/
inductive MethodResult where
  | ret (m : Option Nat)
  | lookupError
  | fatalError
deriving DecidableEq, Repr

/-- Embedding of `method_` (src/method-dispatch.c lines 56-74): check the
`R7_generic` class, fetch and type-check the `@methods` table, resolve, and
apply the `error` policy. -/
def method_ (g : MethodGraph) (gen : Generic) (signature : List (List String))
    (error : Bool) : MethodResult :=
  if "R7_generic" ∈ gen.klass then
    match gen.methods with
    | MethodsAttr.env table =>
      match method_rec g table signature 0 with
      | some m => MethodResult.ret (some m)
      | none => if error then MethodResult.lookupError else MethodResult.ret none
    | MethodsAttr.nonEnv => MethodResult.fatalError
  else
    MethodResult.ret none

mutual

/-- Stateful rendering of `method_rec`: the heap of table environments (the
only mutable store the C code touches during lookup) is threaded through
every step, so that reads are explicit and any write would show up as a
changed state.  Mirrors `method_rec` step for step. -/
def method_rec_st (g : MethodGraph) (table : Nat) (signature : List (List String))
    (itr : Nat) : Option Nat × MethodGraph :=
  if h : signature.length ≤ itr then (none, g)
  else
    match probeClasses_st g table signature itr (signature.getD itr []) (by omega) with
    | (some m, g1) => (some m, g1)
    | (none, g1) =>
      match lookupFrame (g1.frames table) "ANY" with
      | some (Entry.env child) => method_rec_st g1 child signature (itr + 1)
      | some (Entry.clos m) => (some m, g1)
      | _ => (none, g1)
termination_by (signature.length - itr + 1, 0)
decreasing_by
  all_goals simp_wf
  all_goals rw [Prod.lex_iff]
  all_goals simp
  all_goals omega

/-- Stateful rendering of the class-probing loop of `method_rec`. -/
def probeClasses_st (g : MethodGraph) (table : Nat) (signature : List (List String))
    (itr : Nat) (classes : List String) (h : itr < signature.length) :
    Option Nat × MethodGraph :=
  match classes with
  | [] => (none, g)
  | c :: rest =>
    match lookupFrame (g.frames table) c with
    | some (Entry.env child) =>
      match method_rec_st g child signature (itr + 1) with
      | (some m, g1) => (some m, g1)
      | (none, g1) => probeClasses_st g1 table signature itr rest h
    | some (Entry.clos m) => (some m, g)
    | _ => probeClasses_st g table signature itr rest h
termination_by (signature.length - itr, classes.length + 1)
decreasing_by
  all_goals simp_wf
  all_goals rw [Prod.lex_iff]
  all_goals simp
  all_goals omega

end

/-- Stateful rendering of `method_`, threading the table heap. -/
def method_st (g : MethodGraph) (gen : Generic) (signature : List (List String))
    (error : Bool) : MethodResult × MethodGraph :=
  if "R7_generic" ∈ gen.klass then
    match gen.methods with
    | MethodsAttr.env table =>
      match method_rec_st g table signature 0 with
      | (some m, g1) => (MethodResult.ret (some m), g1)
      | (none, g1) =>
        if error then (MethodResult.lookupError, g1) else (MethodResult.ret none, g1)
    | MethodsAttr.nonEnv => (MethodResult.fatalError, g)
  else
    (MethodResult.ret none, g)

mutual

/-- Fuel-bounded rendering of `method_rec`: `none` means the recursion-depth
budget `fuel` was exhausted, `some r` means the walk finished with result
`r` within that budget.  Each nested `method_rec` call costs one unit. -/
def method_rec_fuel (g : MethodGraph) (fuel : Nat) (table : Nat)
    (signature : List (List String)) (itr : Nat) : Option (Option Nat) :=
  match fuel with
  | 0 => none
  | f + 1 =>
    if signature.length ≤ itr then some none
    else
      match probeClasses_fuel g f table signature itr (signature.getD itr []) with
      | some (some m) => some (some m)
      | some none =>
        match lookupFrame (g.frames table) "ANY" with
        | some (Entry.env child) => method_rec_fuel g f child signature (itr + 1)
        | some (Entry.clos m) => some (some m)
        | _ => some none
      | none => none
termination_by (fuel, 0)
decreasing_by
  all_goals rw [Prod.lex_iff]
  all_goals simp

/-- Fuel-bounded rendering of the class-probing loop; the fuel pays for the
depth of nested `method_rec_fuel` walks, not for steps along one level. -/
def probeClasses_fuel (g : MethodGraph) (fuel : Nat) (table : Nat)
    (signature : List (List String)) (itr : Nat) (classes : List String) :
    Option (Option Nat) :=
  match classes with
  | [] => some none
  | c :: rest =>
    match lookupFrame (g.frames table) c with
    | some (Entry.env child) =>
      match method_rec_fuel g fuel child signature (itr + 1) with
      | some (some m) => some (some m)
      | some none => probeClasses_fuel g fuel table signature itr rest
      | none => none
    | some (Entry.clos m) => some (some m)
    | _ => probeClasses_fuel g fuel table signature itr rest
termination_by (fuel, classes.length + 1)
decreasing_by
  all_goals rw [Prod.lex_iff]
  all_goals simp

end

/-- An R value as seen by `method_call_`: either an ordinary object (opaque,
identified by a `Nat`) or an `R7_super` shim, a two-field record holding the
true value and the overriding dispatch class list.  `Rf_inherits(val,
"R7_super")` is the constructor test. -/
inductive RValue where
  | base (id : Nat)
  | shim (trueVal : RValue) (cl : List String)
deriving DecidableEq, Repr

/-- The code slot (`PRCODE`) of an argument promise: the missing-argument
marker `R_MissingArg`, or an expression identified by a `Nat` (its thunk). -/
inductive PCode where
  | missing
  | expr (e : Nat)
deriving DecidableEq, Repr

/-- An R promise: its code slot and its value slot (`PRVALUE`; `none` is
`R_UnboundValue`, i.e. not yet evaluated). -/
structure Promise where
  code : PCode
  value : Option RValue
deriving DecidableEq, Repr

/-- One argument slot of the rebuilt method call `mcall`: a forced promise
passed positionally (referenced by formal name, since `SET_PRVALUE` mutates
the caller's binding in place), a bare symbol (missing dispatch argument),
or a name-tagged symbol (non-dispatch argument). -/
inductive CallArg where
  | promArg (name : String)
  | symbol (name : String)
  | taggedSymbol (name : String)
deriving DecidableEq, Repr

/-- `Rf_findVar` restricted to the call frame: look up a formal's promise. -/
def lookupEnv (env : List (String × Promise)) (n : String) : Option Promise :=
  match env with
  | [] => none
  | (k, p) :: rest => if k = n then some p else lookupEnv rest n

/-- In-place update of a binding (`SET_PRVALUE` mutates the promise that the
frame already holds). -/
def updateEnv (env : List (String × Promise)) (n : String) (p : Promise) :
    List (String × Promise) :=
  match env with
  | [] => []
  | (k, q) :: rest => if k = n then (k, p) :: rest else (k, q) :: updateEnv rest n p

/-- The value `Rf_eval(arg, R_EmptyEnv)` produces for a promise whose code
is the expression `e`: the memoized value if the promise was already forced,
otherwise the result of evaluating the thunk (`evalC` is the host's pure
evaluation of thunk `e` in the environment the promise carries). -/
def forcedValue (evalC : Nat → RValue) (e : Nat) (p : Promise) : RValue :=
  match p.value with
  | some v => v
  | none => evalC e

/-- Embedding of the argument loop of `method_call_` (src/method-dispatch.c
lines 119-161).  Walks the formals with index `i`; `nd` is the number of
dispatch arguments, `objD` the collaborator `R7_obj_dispatch`.  Returns
`none` if a dispatch formal is unbound, otherwise the final call frame, the
`dispatch_classes` signature, the rebuilt argument list, and the trace of
thunks actually evaluated (in evaluation order). -/
def buildLoop (objD : RValue → List String) (evalC : Nat → RValue) (nd : Nat) :
    List String → Nat → List (String × Promise) →
    Option (List (String × Promise) × List (List String) × List CallArg × List String)
  | [], _, env => some (env, [], [], [])
  | name :: rest, i, env =>
    if i < nd then
      match lookupEnv env name with
      | none => none
      | some p =>
        match p.code with
        | PCode.missing =>
          -- lines 148-151: pass the bare symbol, record class "MISSING"
          match buildLoop objD evalC nd rest (i + 1) env with
          | none => none
          | some (env2, cls, args, log) =>
            some (env2, ["MISSING"] :: cls, CallArg.symbol name :: args, log)
        | PCode.expr e =>
          -- line 128: force the promise (evaluates only if not yet forced)
          match forcedValue evalC e p with
          | RValue.shim trueVal cl =>
            -- lines 140-146: unwrap the shim, store its true value
            match buildLoop objD evalC nd rest (i + 1)
                (updateEnv env name { p with value := some trueVal }) with
            | none => none
            | some (env2, cls, args, log) =>
              some (env2, cl :: cls, CallArg.promArg name :: args,
                (if p.value = none then [name] else []) ++ log)
          | RValue.base b =>
            -- lines 130-139: memoize the value, ask obj_dispatch for classes
            match buildLoop objD evalC nd rest (i + 1)
                (updateEnv env name { p with value := some (RValue.base b) }) with
            | none => none
            | some (env2, cls, args, log) =>
              some (env2, objD (RValue.base b) :: cls, CallArg.promArg name :: args,
                (if p.value = none then [name] else []) ++ log)
    else
      -- lines 152-157: non-dispatch argument, forwarded as a tagged symbol
      match buildLoop objD evalC nd rest (i + 1) env with
      | none => none
      | some (env2, cls, args, log) =>
        some (env2, cls, CallArg.taggedSymbol name :: args, log)

/-- Outcome of a full `method_call_`: a rebuilt call (chosen method, the
argument list, the final call frame and the evaluation trace), or one of the
error exits. -/
inductive CallResult where
  | call (m : Nat) (args : List CallArg) (env : List (String × Promise))
      (log : List String)
  | lookupErr
  | applyNonFunction
  | fatalErr
  | unboundArg
deriving Repr

/-- Embedding of `method_call_` (src/method-dispatch.c lines 99-172): build
the signature and argument list, look the method up with `error = TRUE`,
and rebuild the call. -/
def method_call_ (g : MethodGraph) (gen : Generic) (objD : RValue → List String)
    (evalC : Nat → RValue) (env : List (String × Promise)) : CallResult :=
  match buildLoop objD evalC gen.dispatch_args.length gen.formals 0 env with
  | none => CallResult.unboundArg
  | some (env2, classes, args, log) =>
    match method_ g gen classes true with
    | MethodResult.ret (some m) => CallResult.call m args env2 log
    | MethodResult.ret none => CallResult.applyNonFunction
    | MethodResult.lookupError => CallResult.lookupErr
    | MethodResult.fatalError => CallResult.fatalErr

/-- Default promise used only to totalize `getP`. -/
def defaultPromise : Promise := { code := PCode.missing, value := none }

/-- The promise bound to formal `n`, defaulting when unbound. -/
def getP (env : List (String × Promise)) (n : String) : Promise :=
  (lookupEnv env n).getD defaultPromise

/-- The dispatch class list that the argument loop derives for one bound
dispatch promise: `["MISSING"]` for a missing argument, the shim's stored
class list for a super shim, and `obj_dispatch` of the value otherwise. -/
def argClasses (objD : RValue → List String) (evalC : Nat → RValue)
    (p : Promise) : List String :=
  match p.code with
  | PCode.missing => ["MISSING"]
  | PCode.expr e =>
    match forcedValue evalC e p with
    | RValue.shim _ cl => cl
    | RValue.base b => objD (RValue.base b)

/-- The state of one bound dispatch promise after the argument loop: missing
arguments are untouched; otherwise the value slot holds the forced value,
or the shim's stored true value. -/
def argAfter (evalC : Nat → RValue) (p : Promise) : Promise :=
  match p.code with
  | PCode.missing => p
  | PCode.expr e =>
    match forcedValue evalC e p with
    | RValue.shim trueVal _ => { p with value := some trueVal }
    | RValue.base b => { p with value := some (RValue.base b) }

/-- Whether the argument loop actually evaluates this promise's thunk: only
a supplied argument that has not been forced yet. -/
def argForced (p : Promise) : Bool :=
  match p.code, p.value with
  | PCode.expr _, none => true
  | _, _ => false

/-- The `mcall` slot the loop builds for one bound dispatch promise. -/
def dispatchArgOf (p : Promise) (n : String) : CallArg :=
  match p.code with
  | PCode.missing => CallArg.symbol n
  | PCode.expr _ => CallArg.promArg n

/-- Reading a formal from the frame the way the invoked method body does:
returns the value together with a flag telling whether the thunk had to be
evaluated (re-entering the host evaluator). -/
def readPromise (evalC : Nat → RValue) (env : List (String × Promise))
    (n : String) : Option (RValue × Bool) :=
  match lookupEnv env n with
  | none => none
  | some p =>
    match p.value with
    | some v => some (v, false)
    | none =>
      match p.code with
      | PCode.missing => none
      | PCode.expr e => some (evalC e, true)

/-- Concrete table with a method registered at a non-leaf depth: node 0 maps
class `"A"` directly to method closure `42`. -/
def tblShallow : MethodGraph :=
  ⟨fun t => if t = 0 then [("A", Entry.clos 42)] else []⟩

/-- Concrete table whose child environments form a cycle: every node maps
class `"A"` back to node 0. -/
def tblCyclic : MethodGraph :=
  ⟨fun _ => [("A", Entry.env 0)]⟩

/-- Concrete two-level table: `{dog: {cat: 1, ANY: 2}, ANY: {ANY: 3}}`. -/
def tblSpeak : MethodGraph :=
  ⟨fun t =>
    if t = 0 then [("dog", Entry.env 1), ("ANY", Entry.env 2)]
    else if t = 1 then [("cat", Entry.clos 1), ("ANY", Entry.clos 2)]
    else if t = 2 then [("ANY", Entry.clos 3)]
    else []⟩

/-- Concrete well-formed generic over `tblSpeak`. -/
def genSpeak : Generic :=
  { klass := ["R7_generic", "function"], methods := MethodsAttr.env 0,
    formals := ["x", "y"], dispatch_args := ["x", "y"] }

/-- Concrete generic whose `@methods` attribute is not an environment. -/
def genCorrupt : Generic :=
  { klass := ["R7_generic", "function"], methods := MethodsAttr.nonEnv,
    formals := ["x"], dispatch_args := ["x"] }

/-- Concrete object that does not inherit from `R7_generic`. -/
def genNotGeneric : Generic :=
  { klass := ["function"], methods := MethodsAttr.env 0,
    formals := ["x"], dispatch_args := ["x"] }

/-- Concrete collaborator `obj_dispatch`: classes of the sample objects. -/
def objDex : RValue → List String := fun v =>
  match v with
  | RValue.base 1 => ["dog", "animal"]
  | RValue.base 2 => ["cat", "animal"]
  | _ => ["object"]

/-- Concrete thunk evaluator: thunk 1 and 2 yield plain objects, thunk 3
yields a super shim carrying object 1 with tail class list `["animal"]`. -/
def evalCex : Nat → RValue := fun e =>
  match e with
  | 1 => RValue.base 1
  | 2 => RValue.base 2
  | 3 => RValue.shim (RValue.base 1) ["animal"]
  | _ => RValue.base 0

/-- Concrete call frame with two unevaluated supplied arguments. -/
def envEx : List (String × Promise) :=
  [("x", { code := PCode.expr 1, value := none }),
   ("y", { code := PCode.expr 2, value := none })]

/-- Concrete call frame whose first argument evaluates to a super shim. -/
def envShim : List (String × Promise) :=
  [("x", { code := PCode.expr 3, value := none }),
   ("y", { code := PCode.expr 2, value := none })]

/-- Concrete call frame whose first argument is missing. -/
def envMissing : List (String × Promise) :=
  [("x", { code := PCode.missing, value := none }),
   ("y", { code := PCode.expr 2, value := none })]

/-- Concrete call frame with a third, non-dispatch argument. -/
def envEx3 : List (String × Promise) :=
  [("x", { code := PCode.expr 1, value := none }),
   ("y", { code := PCode.expr 2, value := none }),
   ("z", { code := PCode.expr 9, value := none })]

theorem lookupEnv_updateEnv_self (env : List (String × Promise)) (n : String)
    (p q : Promise) (h : lookupEnv env n = some q) :
    lookupEnv (updateEnv env n p) n = some p := by
  induction env with
  | nil => simp [lookupEnv] at h
  | cons kv rest ih =>
    obtain ⟨k, r⟩ := kv
    by_cases hk : k = n
    · subst hk
      simp [lookupEnv, updateEnv]
    · simp [lookupEnv, updateEnv, hk] at h ⊢
      exact ih h

theorem lookupEnv_updateEnv_ne (env : List (String × Promise)) (n m : String)
    (p : Promise) (h : m ≠ n) :
    lookupEnv (updateEnv env n p) m = lookupEnv env m := by
  induction env with
  | nil => simp [updateEnv]
  | cons kv rest ih =>
    obtain ⟨k, r⟩ := kv
    by_cases hk : k = n
    · subst hk
      simp [lookupEnv, updateEnv, Ne.symm h]
    · simp [lookupEnv, updateEnv, hk]
      by_cases hm : k = m <;> simp [hm, ih]

/-- Step equation: a missing dispatch argument contributes the class list
`["MISSING"]` and a bare symbol, evaluating nothing. -/
theorem buildLoop_cons_missing (objD : RValue → List String) (evalC : Nat → RValue)
    (nd : Nat) (name : String) (rest : List String) (i : Nat)
    (env : List (String × Promise)) (p : Promise)
    (hi : i < nd) (hp : lookupEnv env name = some p) (hc : p.code = PCode.missing) :
    buildLoop objD evalC nd (name :: rest) i env =
      match buildLoop objD evalC nd rest (i + 1) env with
      | none => none
      | some (env2, cls, args, log) =>
        some (env2, ["MISSING"] :: cls, CallArg.symbol name :: args, log) := by
  simp only [buildLoop, if_pos hi, hp, hc]

/-- Step equation: a supplied dispatch argument is forced; the resulting
class list, promise update and evaluation record are those of `argClasses`,
`argAfter` and `argForced`. -/
theorem buildLoop_cons_expr (objD : RValue → List String) (evalC : Nat → RValue)
    (nd : Nat) (name : String) (rest : List String) (i : Nat)
    (env : List (String × Promise)) (p : Promise) (e : Nat)
    (hi : i < nd) (hp : lookupEnv env name = some p) (hc : p.code = PCode.expr e) :
    buildLoop objD evalC nd (name :: rest) i env =
      match buildLoop objD evalC nd rest (i + 1)
          (updateEnv env name (argAfter evalC p)) with
      | none => none
      | some (env2, cls, args, log) =>
        some (env2, argClasses objD evalC p :: cls, CallArg.promArg name :: args,
          (if argForced p then [name] else []) ++ log) := by
  have hforced : argForced p = decide (p.value = none) := by
    rw [argForced, hc]
    cases p.value <;> simp
  cases hv : forcedValue evalC e p with
  | shim trueVal cl =>
    simp only [buildLoop, if_pos hi, hp, hc, hv, argAfter, argClasses, hforced]
    cases hpv : p.value <;> simp
  | base b =>
    simp only [buildLoop, if_pos hi, hp, hc, hv, argAfter, argClasses, hforced]
    cases hpv : p.value <;> simp

/-- Step equation: a non-dispatch argument is forwarded as a tagged symbol
and nothing else happens. -/
theorem buildLoop_cons_nondispatch (objD : RValue → List String) (evalC : Nat → RValue)
    (nd : Nat) (name : String) (rest : List String) (i : Nat)
    (env : List (String × Promise)) (hi : ¬ i < nd) :
    buildLoop objD evalC nd (name :: rest) i env =
      match buildLoop objD evalC nd rest (i + 1) env with
      | none => none
      | some (env2, cls, args, log) =>
        some (env2, cls, CallArg.taggedSymbol name :: args, log) := by
  simp only [buildLoop, if_neg hi]

/-- Characterization of the argument loop: with distinct formals and all
dispatch formals bound, the loop succeeds; the signature, the rebuilt
argument list, the evaluation trace, and the final frame are all determined
pointwise by the original promises. -/
theorem buildLoop_master (objD : RValue → List String) (evalC : Nat → RValue)
    (nd : Nat) :
    ∀ (F : List String) (i : Nat) (env : List (String × Promise)),
    F.Nodup →
    (∀ n ∈ F.take (nd - i), (lookupEnv env n).isSome) →
    ∃ env2,
      buildLoop objD evalC nd F i env =
        some (env2,
          (F.take (nd - i)).map (fun n => argClasses objD evalC (getP env n)),
          (F.take (nd - i)).map (fun n => dispatchArgOf (getP env n) n) ++
            (F.drop (nd - i)).map CallArg.taggedSymbol,
          (F.take (nd - i)).filter (fun n => argForced (getP env n))) ∧
      (∀ n ∈ F.take (nd - i), lookupEnv env2 n = some (argAfter evalC (getP env n))) ∧
      (∀ n, n ∉ F.take (nd - i) → lookupEnv env2 n = lookupEnv env n) := by
  intro F
  induction F with
  | nil =>
    intro i env _ _
    exact ⟨env, by simp [buildLoop], by simp, fun n _ => rfl⟩
  | cons name rest ih =>
    intro i env hnd hb
    rcases List.nodup_cons.mp hnd with ⟨hname, hrest⟩
    by_cases hi : i < nd
    · have htake : nd - i = nd - (i + 1) + 1 := by omega
      have hbhead : (lookupEnv env name).isSome := by
        apply hb
        rw [htake, List.take_succ_cons]
        exact List.mem_cons_self _ _
      obtain ⟨p, hp⟩ : ∃ p, lookupEnv env name = some p := by
        cases hlp : lookupEnv env name with
        | none => rw [hlp] at hbhead; simp at hbhead
        | some q => exact ⟨q, rfl⟩
      have hgetp : getP env name = p := by simp [getP, hp]
      have hbrest : ∀ n ∈ rest.take (nd - (i + 1)), (lookupEnv env n).isSome := by
        intro n hn
        apply hb
        rw [htake, List.take_succ_cons]
        exact List.mem_cons_of_mem _ hn
      cases hcode : p.code with
      | missing =>
        obtain ⟨env2, heq, hin, hout⟩ := ih (i + 1) env hrest hbrest
        refine ⟨env2, ?_, ?_, ?_⟩
        · rw [buildLoop_cons_missing objD evalC nd name rest i env p hi hp hcode,
            heq, htake, List.take_succ_cons, List.drop_succ_cons,
            List.map_cons, List.map_cons, List.filter_cons, hgetp]
          simp [argClasses, dispatchArgOf, argForced, hcode]
        · rw [htake, List.take_succ_cons]
          intro n hn
          rcases List.mem_cons.mp hn with hn | hn
          · rw [hn, hout name (fun hc => hname (List.take_subset _ _ hc)), hp,
              hgetp]
            simp [argAfter, hcode]
          · exact hin n hn
        · rw [htake, List.take_succ_cons]
          intro n hn
          exact hout n (fun hc => hn (List.mem_cons_of_mem _ hc))
      | expr e =>
        have hne : ∀ m ∈ rest, m ≠ name := fun m hm hc => hname (hc ▸ hm)
        have hbrest1 : ∀ n ∈ rest.take (nd - (i + 1)),
            (lookupEnv (updateEnv env name (argAfter evalC p)) n).isSome := by
          intro n hn
          rw [lookupEnv_updateEnv_ne env name n _ (hne n (List.take_subset _ _ hn))]
          exact hbrest n hn
        obtain ⟨env2, heq, hin, hout⟩ :=
          ih (i + 1) (updateEnv env name (argAfter evalC p)) hrest hbrest1
        have hget1 : ∀ n ∈ rest,
            getP (updateEnv env name (argAfter evalC p)) n = getP env n := by
          intro n hn
          rw [getP, lookupEnv_updateEnv_ne env name n _ (hne n hn)]
          rfl
        refine ⟨env2, ?_, ?_, ?_⟩
        · rw [buildLoop_cons_expr objD evalC nd name rest i env p e hi hp hcode,
            heq, htake, List.take_succ_cons, List.drop_succ_cons,
            List.map_cons, List.map_cons, List.filter_cons, hgetp,
            List.map_congr_left (fun n hn =>
              congrArg (argClasses objD evalC) (hget1 n (List.take_subset _ _ hn))),
            List.map_congr_left (fun n hn =>
              congrArg (fun q => dispatchArgOf q n) (hget1 n (List.take_subset _ _ hn))),
            List.filter_congr (fun n hn =>
              congrArg argForced (hget1 n (List.take_subset _ _ hn)))]
          have hdarg : dispatchArgOf p name = CallArg.promArg name := by
            rw [dispatchArgOf, hcode]
          rw [hdarg]
          cases hf : argForced p <;> simp
        · rw [htake, List.take_succ_cons]
          intro n hn
          rcases List.mem_cons.mp hn with hn | hn
          · rw [hn, hout name (fun hc => hname (List.take_subset _ _ hc)),
              lookupEnv_updateEnv_self env name _ p hp, hgetp]
          · rw [hin n hn, hget1 n (List.take_subset _ _ hn)]
        · rw [htake, List.take_succ_cons]
          intro n hn
          have hn1 : n ≠ name := fun hc => hn (hc ▸ List.mem_cons_self _ _)
          rw [hout n (fun hc => hn (List.mem_cons_of_mem _ hc)),
            lookupEnv_updateEnv_ne env name n _ hn1]
    · have htake : nd - i = 0 := by omega
      have htake1 : nd - (i + 1) = 0 := by omega
      obtain ⟨env2, heq, hin, hout⟩ := ih (i + 1) env hrest (by rw [htake1]; simp)
      refine ⟨env2, ?_, by rw [htake]; simp, ?_⟩
      · rw [buildLoop_cons_nondispatch objD evalC nd name rest i env hi, heq,
          htake, htake1]
        simp
      · intro n _
        exact hout n (by rw [htake1]; simp)


theorem method_rec_eq_resolve_spec_aux (g : MethodGraph) (sig : List (List String)) :
    ∀ (k itr : Nat), sig.length - itr ≤ k →
      ∀ t, method_rec g t sig itr = resolve_spec g t sig itr := by
  intro k
  induction k with
  | zero =>
    intro itr hk t
    have h : sig.length ≤ itr := by omega
    rw [method_rec.eq_def, resolve_spec.eq_def, dif_pos h, dif_pos h]
  | succ k ihk =>
    intro itr hk t
    by_cases h : sig.length ≤ itr
    · rw [method_rec.eq_def, resolve_spec.eq_def, dif_pos h, dif_pos h]
    · have hlt : itr < sig.length := by omega
      have hIH : ∀ t, method_rec g t sig (itr + 1) = resolve_spec g t sig (itr + 1) :=
        fun t => ihk (itr + 1) (by omega) t
      have hloop : ∀ (cs : List String) (t : Nat) (h1 : itr < sig.length),
          probeClasses g t sig itr cs h1 = specLoop g t sig itr cs h1 := by
        intro cs
        induction cs with
        | nil =>
          intro t h1
          rw [probeClasses.eq_def, specLoop.eq_def]
        | cons c rest ihc =>
          intro t h1
          rw [probeClasses.eq_def, specLoop.eq_def]
          simp only
          cases hlk : lookupFrame (g.frames t) c with
          | none => exact ihc t h1
          | some entry =>
            cases entry with
            | env child =>
              simp only [hIH child]
              cases resolve_spec g child sig (itr + 1) with
              | none => exact ihc t h1
              | some m => rfl
            | clos m => rfl
            | other => exact ihc t h1
      rw [method_rec.eq_def, resolve_spec.eq_def, dif_neg h, dif_neg h]
      simp only [hloop]
      cases specLoop g t sig itr (sig.getD itr []) (by omega) with
      | some m => rfl
      | none =>
        simp only
        cases lookupFrame (g.frames t) "ANY" with
        | none => rfl
        | some entry =>
          cases entry with
          | env child =>
            simp only [hIH child]
            cases resolve_spec g child sig (itr + 1) <;> rfl
          | clos m => rfl
          | other => rfl

theorem method_rec_probe_head_clos (g : MethodGraph) (t : Nat)
    (sig : List (List String)) (itr : Nat) (c : String) (rest : List String)
    (m : Nat) (hlt : itr < sig.length) (hcls : sig.getD itr [] = c :: rest)
    (hlk : lookupFrame (g.frames t) c = some (Entry.clos m)) :
    method_rec g t sig itr = some m := by
  have hprobe : ∀ (h1 : itr < sig.length),
      probeClasses g t sig itr (c :: rest) h1 = some m := by
    intro h1
    rw [probeClasses.eq_def]
    simp only [hlk]
  rw [method_rec.eq_def, dif_neg (not_le.mpr hlt), hcls, hprobe]

/-- C1: for every method table and signature, `method_rec(table, S, 0)`
returns exactly the method selected by the spec's recursive rule
(`resolve_spec`, transcribed from the spec's pseudocode): at each depth the
classes of `S[i]` are probed in order, child nodes are searched recursively,
child methods are accepted, the `ANY` wildcard is probed only after every
declared class failed, and `absent` (`none`) is returned when nothing is
found. -/
theorem c1_resolver_follows_spec_rule (g : MethodGraph) (table : Nat)
    (S : List (List String)) :
    method_rec g table S 0 = resolve_spec g table S 0 :=
  method_rec_eq_resolve_spec_aux g S S.length 0 (by omega) table

/-- C2 counterexample: in `tblShallow` the only method value (closure `42`)
sits under class key `"A"` at depth 0, while the signature has length
`D = 2`, so the claim says resolution must ignore it and return absent.
The code returns it: the resolver accepts a closure at any depth. -/
theorem c2_counterexample_shallow_method_returned :
    method_rec tblShallow 0 [["A"], ["B"]] 0 = some 42 := by
  simp [method_rec, probeClasses, lookupFrame, tblShallow]

/-- C2 amended: when the resolver probes a class key bound to a method
value, it returns that method immediately at every depth `itr`, including
non-leaf depths `itr < D - 1`; the resolver does not ignore shallow method
values (the spec expects registration, not resolution, to enforce the
leaf-depth invariant). -/
theorem c2_amended_shallow_method_not_ignored (g : MethodGraph) (t : Nat)
    (sig : List (List String)) (itr : Nat) (c : String) (rest : List String)
    (m : Nat) (hlt : itr < sig.length) (hcls : sig.getD itr [] = c :: rest)
    (hlk : lookupFrame (g.frames t) c = some (Entry.clos m)) :
    method_rec g t sig itr = some m :=
  method_rec_probe_head_clos g t sig itr c rest m hlt hcls hlk

/-- C2 amended witness: instantiated on `tblShallow` at depth 0 of a
two-level signature. -/
theorem c2_amended_witness :
    (0 < ([["A"], ["B"]] : List (List String)).length ∧
      ([["A"], ["B"]] : List (List String)).getD 0 [] = "A" :: [] ∧
      lookupFrame (tblShallow.frames 0) "A" = some (Entry.clos 42)) ∧
    method_rec tblShallow 0 [["A"], ["B"]] 0 = some 42 :=
  ⟨⟨by decide, by decide, by decide⟩,
    c2_amended_shallow_method_not_ignored tblShallow 0 [["A"], ["B"]] 0 "A" [] 42
      (by decide) (by decide) (by decide)⟩

/-- C3: for a well-formed generic (inherits `R7_generic`, environment
method table), lookup with `error = true` returns the resolved method when
one exists and otherwise invokes `method_lookup_error` (modelled by the
never-returning `MethodResult.lookupError` outcome); with `error = false`
it returns exactly the resolver's result, so absent stays absent. -/
theorem c3_error_flag_policy (g : MethodGraph) (gen : Generic)
    (sig : List (List String)) (t : Nat) (hgen : "R7_generic" ∈ gen.klass)
    (htbl : gen.methods = MethodsAttr.env t) :
    (∀ m, method_rec g t sig 0 = some m →
      method_ g gen sig true = MethodResult.ret (some m)) ∧
    (method_rec g t sig 0 = none →
      method_ g gen sig true = MethodResult.lookupError) ∧
    method_ g gen sig false = MethodResult.ret (method_rec g t sig 0) := by
  refine ⟨fun m hm => ?_, fun hm => ?_, ?_⟩
  · simp [method_, hgen, htbl, hm]
  · simp [method_, hgen, htbl, hm]
  · simp only [method_, if_pos hgen, htbl]
    cases hr : method_rec g t sig 0 <;> simp [hr]

/-- C3 witness: `genSpeak` over `tblSpeak`, where the signature
`[["fish"], ["frog"]]` resolves to method 3 via the wildcard path. -/
theorem c3_witness :
    ("R7_generic" ∈ genSpeak.klass ∧ genSpeak.methods = MethodsAttr.env 0) ∧
    ((∀ m, method_rec tblSpeak 0 [["fish"], ["frog"]] 0 = some m →
      method_ tblSpeak genSpeak [["fish"], ["frog"]] true = MethodResult.ret (some m)) ∧
    (method_rec tblSpeak 0 [["fish"], ["frog"]] 0 = none →
      method_ tblSpeak genSpeak [["fish"], ["frog"]] true = MethodResult.lookupError) ∧
    method_ tblSpeak genSpeak [["fish"], ["frog"]] false =
      MethodResult.ret (method_rec tblSpeak 0 [["fish"], ["frog"]] 0)) :=
  ⟨⟨by decide, by decide⟩,
    c3_error_flag_policy tblSpeak genSpeak [["fish"], ["frog"]] 0 (by decide) (by decide)⟩

/-- C8: if the generic inherits `R7_generic` but its `@methods` attribute is
not an environment, `method_` raises the fatal corrupt-table error, for
every table heap, signature and error flag — i.e. before any resolution is
attempted. -/
theorem c8_corrupt_table_fatal (g : MethodGraph) (gen : Generic)
    (sig : List (List String)) (error : Bool)
    (hgen : "R7_generic" ∈ gen.klass) (hbad : gen.methods = MethodsAttr.nonEnv) :
    method_ g gen sig error = MethodResult.fatalError := by
  simp [method_, hgen, hbad]

/-- C8 witness: `genCorrupt` with `error = false` still dies fatally. -/
theorem c8_witness :
    ("R7_generic" ∈ genCorrupt.klass ∧ genCorrupt.methods = MethodsAttr.nonEnv) ∧
    method_ tblSpeak genCorrupt [["dog"]] false = MethodResult.fatalError :=
  ⟨⟨by decide, by decide⟩,
    c8_corrupt_table_fatal tblSpeak genCorrupt [["dog"]] false (by decide) (by decide)⟩

/-- C9: if the first argument does not inherit from `R7_generic`, `method_`
returns `R_NilValue` immediately for every signature and both error flags —
no lookup error and no fatal error is raised. -/
theorem c9_not_a_generic_returns_nil (g : MethodGraph) (gen : Generic)
    (sig : List (List String)) (error : Bool)
    (hgen : "R7_generic" ∉ gen.klass) :
    method_ g gen sig error = MethodResult.ret none := by
  simp [method_, hgen]

/-- C9 witness: `genNotGeneric` with `error = true` returns nil rather than
erroring. -/
theorem c9_witness :
    ("R7_generic" ∉ genNotGeneric.klass) ∧
    method_ tblSpeak genNotGeneric [["dog"]] true = MethodResult.ret none :=
  ⟨by decide,
    c9_not_a_generic_returns_nil tblSpeak genNotGeneric [["dog"]] true (by decide)⟩

theorem method_rec_st_eq_aux (sig : List (List String)) :
    ∀ (k itr : Nat), sig.length - itr ≤ k →
      ∀ (g : MethodGraph) (t : Nat),
        method_rec_st g t sig itr = (method_rec g t sig itr, g) := by
  intro k
  induction k with
  | zero =>
    intro itr hk g t
    have h : sig.length ≤ itr := by omega
    rw [method_rec_st.eq_def, method_rec.eq_def, dif_pos h, dif_pos h]
  | succ k ihk =>
    intro itr hk g t
    by_cases h : sig.length ≤ itr
    · rw [method_rec_st.eq_def, method_rec.eq_def, dif_pos h, dif_pos h]
    · have hIH : ∀ (g : MethodGraph) (t : Nat),
          method_rec_st g t sig (itr + 1) = (method_rec g t sig (itr + 1), g) :=
        fun g t => ihk (itr + 1) (by omega) g t
      have hloop : ∀ (cs : List String) (g : MethodGraph) (t : Nat)
          (h1 : itr < sig.length),
          probeClasses_st g t sig itr cs h1 = (probeClasses g t sig itr cs h1, g) := by
        intro cs
        induction cs with
        | nil =>
          intro g t h1
          rw [probeClasses_st.eq_def, probeClasses.eq_def]
        | cons c rest ihc =>
          intro g t h1
          rw [probeClasses_st.eq_def, probeClasses.eq_def]
          simp only
          cases hlk : lookupFrame (g.frames t) c with
          | none => exact ihc g t h1
          | some entry =>
            cases entry with
            | env child =>
              simp only [hIH]
              cases method_rec g child sig (itr + 1) with
              | none => exact ihc g t h1
              | some m => rfl
            | clos m => rfl
            | other => exact ihc g t h1
      rw [method_rec_st.eq_def, method_rec.eq_def, dif_neg h, dif_neg h]
      simp only [hloop]
      cases probeClasses g t sig itr (sig.getD itr []) (by omega) with
      | some m => rfl
      | none =>
        simp only
        cases lookupFrame (g.frames t) "ANY" with
        | none => rfl
        | some entry =>
          cases entry with
          | env child => simp only [hIH]
          | clos m => rfl
          | other => rfl

theorem method_st_eq (g : MethodGraph) (gen : Generic)
    (sig : List (List String)) (error : Bool) :
    method_st g gen sig error = (method_ g gen sig error, g) := by
  by_cases hgen : "R7_generic" ∈ gen.klass
  · cases htbl : gen.methods with
    | nonEnv => simp [method_st, method_, hgen, htbl]
    | env t =>
      simp only [method_st, method_, if_pos hgen, htbl,
        method_rec_st_eq_aux sig sig.length 0 (by omega) g t]
      cases method_rec g t sig 0 with
      | some m => rfl
      | none => cases error <;> rfl
  · simp [method_st, method_, hgen]

/-- C7: method lookup is pure.  In the state-threaded rendering of the
lookup (`method_st`, where the heap of method-table environments — the only
mutable store the C code could touch — is threaded explicitly), the final
state equals the initial state: the resolver mutates neither the method
table nor the signature's class lists (plain values in the embedding).
Consequently a second `method(G, S, error=false)` call on the state the
first call left behind returns exactly the same value. -/
theorem c7_lookup_is_pure (g : MethodGraph) (gen : Generic)
    (sig : List (List String)) :
    (method_st g gen sig false).2 = g ∧
    method_st (method_st g gen sig false).2 gen sig false =
      method_st g gen sig false := by
  have h := method_st_eq g gen sig false
  constructor
  · rw [h]
  · rw [h]
    exact method_st_eq g gen sig false

theorem method_rec_fuel_eq_aux (sig : List (List String)) :
    ∀ (k itr : Nat), sig.length - itr ≤ k →
      ∀ (g : MethodGraph) (t fuel : Nat), k < fuel →
        method_rec_fuel g fuel t sig itr = some (method_rec g t sig itr) := by
  intro k
  induction k with
  | zero =>
    intro itr hk g t fuel hf
    have h : sig.length ≤ itr := by omega
    obtain ⟨f, rfl⟩ : ∃ f, fuel = f + 1 := ⟨fuel - 1, by omega⟩
    simp only [method_rec_fuel]
    rw [if_pos h, method_rec.eq_def, dif_pos h]
  | succ k ihk =>
    intro itr hk g t fuel hf
    obtain ⟨f, rfl⟩ : ∃ f, fuel = f + 1 := ⟨fuel - 1, by omega⟩
    by_cases h : sig.length ≤ itr
    · simp only [method_rec_fuel]
      rw [if_pos h, method_rec.eq_def, dif_pos h]
    · have hlt : itr < sig.length := by omega
      have hIH : ∀ (g : MethodGraph) (t : Nat),
          method_rec_fuel g f t sig (itr + 1) = some (method_rec g t sig (itr + 1)) :=
        fun g t => ihk (itr + 1) (by omega) g t f (by omega)
      have hloop : ∀ (cs : List String) (g : MethodGraph) (t : Nat),
          probeClasses_fuel g f t sig itr cs =
            some (probeClasses g t sig itr cs hlt) := by
        intro cs
        induction cs with
        | nil =>
          intro g t
          rw [probeClasses_fuel.eq_def, probeClasses.eq_def]
        | cons c rest ihc =>
          intro g t
          rw [probeClasses_fuel.eq_def, probeClasses.eq_def]
          simp only
          cases hlk : lookupFrame (g.frames t) c with
          | none => exact ihc g t
          | some entry =>
            cases entry with
            | env child =>
              simp only [hIH]
              cases method_rec g child sig (itr + 1) with
              | none => exact ihc g t
              | some m => rfl
            | clos m => rfl
            | other => exact ihc g t
      simp only [method_rec_fuel]
      rw [if_neg h, method_rec.eq_def, dif_neg h]
      rw [hloop (sig.getD itr []) g t]
      cases hp : probeClasses g t sig itr (sig.getD itr []) hlt with
      | some m => rfl
      | none =>
        simp only
        cases lookupFrame (g.frames t) "ANY" with
        | none => rfl
        | some entry =>
          cases entry with
          | env child => simp only [hIH]
          | clos m => rfl
          | other => rfl

/-- C10: the resolver terminates on every table, including cyclic
environment graphs, with recursion depth bounded by the number of class
lists in the signature: any depth budget `fuel` exceeding
`sig.length - itr` lets the fuel-bounded resolver finish (it never runs
out) in agreement with `method_rec`; and as soon as the iterator reaches
the signature's length, the resolver returns absent. -/
theorem c10_resolver_terminates (g : MethodGraph) (t : Nat)
    (sig : List (List String)) (itr fuel : Nat)
    (hfuel : sig.length - itr < fuel) :
    method_rec_fuel g fuel t sig itr = some (method_rec g t sig itr) ∧
    (sig.length ≤ itr → method_rec g t sig itr = none) := by
  constructor
  · exact method_rec_fuel_eq_aux sig (sig.length - itr) itr (by omega) g t fuel hfuel
  · intro h
    rw [method_rec.eq_def, dif_pos h]

/-- C10 witness: on the cyclic table `tblCyclic` (every node maps class
`"A"` back to node 0), with a two-element signature a depth budget of 3
suffices. -/
theorem c10_witness :
    (([["A"], ["A"]] : List (List String)).length - 0 < 3) ∧
    (method_rec_fuel tblCyclic 3 0 [["A"], ["A"]] 0 =
        some (method_rec tblCyclic 0 [["A"], ["A"]] 0) ∧
      (([["A"], ["A"]] : List (List String)).length ≤ 0 →
        method_rec tblCyclic 0 [["A"], ["A"]] 0 = none)) :=
  ⟨by decide, c10_resolver_terminates tblCyclic 0 [["A"], ["A"]] 0 3 (by decide)⟩

/-- C4: when the evaluated dispatch argument at position `i` is a super
shim `{true_value, cl}`, the signature builder sets `dispatch_classes[i]`
to the stored class list `cl` (not `obj_dispatch` of the value), writes the
true value into the promise's value slot, and passes that promise argument
to the method; every other dispatch position keeps its ordinary classes
(`argClasses`, i.e. `obj_dispatch` of its forced value), so the recursive
dispatch runs on the substituted tail class list. -/
theorem c4_super_shim_substitutes_class_list
    (objD : RValue → List String) (evalC : Nat → RValue) (nd : Nat)
    (F : List String) (env : List (String × Promise)) (i : Nat) (name : String)
    (p : Promise) (e : Nat) (tv : RValue) (cl : List String)
    (hnd : F.Nodup)
    (hb : ∀ n ∈ F.take nd, (lookupEnv env n).isSome)
    (hi : i < nd)
    (hname : F[i]? = some name)
    (hp : lookupEnv env name = some p)
    (hcode : p.code = PCode.expr e)
    (hshim : forcedValue evalC e p = RValue.shim tv cl) :
    ∃ env2 classes args log,
      buildLoop objD evalC nd F 0 env = some (env2, classes, args, log) ∧
      classes[i]? = some cl ∧
      lookupEnv env2 name = some { p with value := some tv } ∧
      args[i]? = some (CallArg.promArg name) ∧
      (∀ (j : Nat) (nj : String), j < nd → F[j]? = some nj →
        classes[j]? = some (argClasses objD evalC (getP env nj))) := by
  obtain ⟨env2, heq, hin, hout⟩ :=
    buildLoop_master objD evalC nd F 0 env hnd (by simpa using hb)
  simp only [Nat.sub_zero] at heq hin hout
  have hiF : i < F.length := by
    by_contra hc
    rw [List.getElem?_eq_none (by omega)] at hname
    simp at hname
  have htakei : (F.take nd)[i]? = some name := by
    rw [List.getElem?_take, if_pos hi, hname]
  have hmemtake : name ∈ F.take nd := List.getElem?_mem htakei
  have hgetp : getP env name = p := by simp [getP, hp]
  have hclsj : ∀ (j : Nat) (nj : String), j < nd → F[j]? = some nj →
      ((F.take nd).map (fun n => argClasses objD evalC (getP env n)))[j]? =
        some (argClasses objD evalC (getP env nj)) := by
    intro j nj hj hFj
    rw [List.getElem?_map, List.getElem?_take, if_pos hj, hFj]
    rfl
  refine ⟨env2, _, _, _, heq, ?_, ?_, ?_, hclsj⟩
  · rw [hclsj i name hi hname, hgetp]
    simp only [argClasses, hcode, hshim]
  · rw [hin name hmemtake, hgetp]
    simp only [argAfter, hcode, hshim]
  · have hilt : i < ((F.take nd).map (fun n => dispatchArgOf (getP env n) n)).length := by
      rw [List.length_map, List.length_take]
      omega
    rw [List.getElem?_append, if_pos hilt, List.getElem?_map, htakei]
    simp only [Option.map_some']
    rw [hgetp]
    simp only [dispatchArgOf, hcode]

/-- C4 witness: frame `envShim`, where the promise for `x` evaluates to the
shim `{base 1, ["animal"]}`. -/
theorem c4_witness :
    ((["x", "y"] : List String).Nodup ∧
      (∀ n ∈ (["x", "y"] : List String).take 2, (lookupEnv envShim n).isSome) ∧
      0 < 2 ∧
      (["x", "y"] : List String)[0]? = some "x" ∧
      lookupEnv envShim "x" = some { code := PCode.expr 3, value := none } ∧
      Promise.code { code := PCode.expr 3, value := none } = PCode.expr 3 ∧
      forcedValue evalCex 3 { code := PCode.expr 3, value := none } =
        RValue.shim (RValue.base 1) ["animal"]) ∧
    (∃ env2 classes args log,
      buildLoop objDex evalCex 2 ["x", "y"] 0 envShim =
        some (env2, classes, args, log) ∧
      classes[0]? = some ["animal"] ∧
      lookupEnv env2 "x" =
        some { code := PCode.expr 3, value := some (RValue.base 1) } ∧
      args[0]? = some (CallArg.promArg "x") ∧
      (∀ (j : Nat) (nj : String), j < 2 → (["x", "y"] : List String)[j]? = some nj →
        classes[j]? = some (argClasses objDex evalCex (getP envShim nj)))) :=
  ⟨⟨by decide, by decide, by decide, by decide, by decide, by decide, by decide⟩,
    c4_super_shim_substitutes_class_list objDex evalCex 2 ["x", "y"] envShim 0 "x"
      { code := PCode.expr 3, value := none } 3 (RValue.base 1) ["animal"]
      (by decide) (by decide) (by decide) (by decide) (by decide) (by decide) (by decide)⟩

/-- C5: when the dispatch argument at position `i` is missing (its promise
code is the missing marker), the signature builder records the singleton
class list `["MISSING"]` without evaluating anything (the promise is left
untouched and the evaluation trace excludes it) and passes the parameter
name as a bare symbol; and the resolver probes the literal table key
`"MISSING"` like any other class name, so a method registered under that
key is selected. -/
theorem c5_missing_argument_uses_missing_key
    (objD : RValue → List String) (evalC : Nat → RValue) (nd : Nat)
    (F : List String) (env : List (String × Promise)) (i : Nat) (name : String)
    (p : Promise)
    (hnd : F.Nodup)
    (hb : ∀ n ∈ F.take nd, (lookupEnv env n).isSome)
    (hi : i < nd)
    (hname : F[i]? = some name)
    (hp : lookupEnv env name = some p)
    (hcode : p.code = PCode.missing) :
    (∃ env2 classes args log,
      buildLoop objD evalC nd F 0 env = some (env2, classes, args, log) ∧
      classes[i]? = some ["MISSING"] ∧
      args[i]? = some (CallArg.symbol name) ∧
      lookupEnv env2 name = some p ∧
      name ∉ log) ∧
    (∀ (g : MethodGraph) (t : Nat) (sig : List (List String)) (itr m : Nat),
      itr < sig.length → sig.getD itr [] = ["MISSING"] →
      lookupFrame (g.frames t) "MISSING" = some (Entry.clos m) →
      method_rec g t sig itr = some m) := by
  constructor
  · obtain ⟨env2, heq, hin, hout⟩ :=
      buildLoop_master objD evalC nd F 0 env hnd (by simpa using hb)
    simp only [Nat.sub_zero] at heq hin hout
    have hiF : i < F.length := by
      by_contra hc
      rw [List.getElem?_eq_none (by omega)] at hname
      simp at hname
    have htakei : (F.take nd)[i]? = some name := by
      rw [List.getElem?_take, if_pos hi, hname]
    have hmemtake : name ∈ F.take nd := List.getElem?_mem htakei
    have hgetp : getP env name = p := by simp [getP, hp]
    refine ⟨env2, _, _, _, heq, ?_, ?_, ?_, ?_⟩
    · rw [List.getElem?_map, htakei]
      simp only [Option.map_some']
      rw [hgetp]
      simp only [argClasses, hcode]
    · have hilt : i < ((F.take nd).map (fun n => dispatchArgOf (getP env n) n)).length := by
        rw [List.length_map, List.length_take]
        omega
      rw [List.getElem?_append, if_pos hilt, List.getElem?_map, htakei]
      simp only [Option.map_some']
      rw [hgetp]
      simp only [dispatchArgOf, hcode]
    · rw [hin name hmemtake, hgetp]
      simp only [argAfter, hcode]
    · intro hmem
      have hforced : argForced (getP env name) = true := (List.mem_filter.mp hmem).2
      rw [hgetp] at hforced
      simp only [argForced, hcode] at hforced
      exact Bool.false_ne_true hforced
  · intro g t sig itr m hlt hcls hlk
    exact method_rec_probe_head_clos g t sig itr "MISSING" [] m hlt hcls hlk

/-- C5 witness: frame `envMissing`, whose `x` promise carries the missing
marker, applied together with the `MISSING`-key resolution clause. -/
theorem c5_witness :
    ((["x", "y"] : List String).Nodup ∧
      (∀ n ∈ (["x", "y"] : List String).take 2, (lookupEnv envMissing n).isSome) ∧
      0 < 2 ∧
      (["x", "y"] : List String)[0]? = some "x" ∧
      lookupEnv envMissing "x" = some { code := PCode.missing, value := none } ∧
      Promise.code { code := PCode.missing, value := none } = PCode.missing) ∧
    ((∃ env2 classes args log,
      buildLoop objDex evalCex 2 ["x", "y"] 0 envMissing =
        some (env2, classes, args, log) ∧
      classes[0]? = some ["MISSING"] ∧
      args[0]? = some (CallArg.symbol "x") ∧
      lookupEnv env2 "x" = some { code := PCode.missing, value := none } ∧
      "x" ∉ log) ∧
    (∀ (g : MethodGraph) (t : Nat) (sig : List (List String)) (itr m : Nat),
      itr < sig.length → sig.getD itr [] = ["MISSING"] →
      lookupFrame (g.frames t) "MISSING" = some (Entry.clos m) →
      method_rec g t sig itr = some m)) :=
  ⟨⟨by decide, by decide, by decide, by decide, by decide, by decide⟩,
    c5_missing_argument_uses_missing_key objDex evalCex 2 ["x", "y"] envMissing 0 "x"
      { code := PCode.missing, value := none }
      (by decide) (by decide) (by decide) (by decide) (by decide) (by decide)⟩

/-- C6: in a full dispatch over fresh (unevaluated) promises, the loop's
evaluation trace is exactly the supplied dispatch formals, in formal order
left to right, each exactly once (the trace is duplicate-free); each
supplied dispatch argument ends with its value memoized in the promise's
value slot, so the method body's read returns the stored value without
re-entering the evaluator; and non-dispatch arguments are never evaluated:
they are absent from the trace and their bindings are untouched. -/
theorem c6_dispatch_args_forced_exactly_once
    (objD : RValue → List String) (evalC : Nat → RValue) (nd : Nat)
    (F : List String) (env : List (String × Promise))
    (hnd : F.Nodup)
    (hb : ∀ n ∈ F.take nd, ∃ p, lookupEnv env n = some p ∧ p.value = none) :
    ∃ env2 classes args,
      buildLoop objD evalC nd F 0 env =
        some (env2, classes, args,
          (F.take nd).filter (fun n => argForced (getP env n))) ∧
      (F.take nd).filter (fun n => argForced (getP env n)) =
        (F.take nd).filter (fun n => (getP env n).code != PCode.missing) ∧
      ((F.take nd).filter (fun n => argForced (getP env n))).Nodup ∧
      (∀ n ∈ F.take nd, (getP env n).code ≠ PCode.missing →
        n ∈ (F.take nd).filter (fun n => argForced (getP env n)) ∧
        ∃ v, readPromise evalC env2 n = some (v, false)) ∧
      (∀ n ∈ F.drop nd,
        n ∉ (F.take nd).filter (fun n => argForced (getP env n)) ∧
        lookupEnv env2 n = lookupEnv env n) := by
  have hbs : ∀ n ∈ F.take nd, (lookupEnv env n).isSome := by
    intro n hn
    obtain ⟨p, hp, _⟩ := hb n hn
    rw [hp]
    rfl
  obtain ⟨env2, heq, hin, hout⟩ :=
    buildLoop_master objD evalC nd F 0 env hnd (by simpa using hbs)
  simp only [Nat.sub_zero] at heq hin hout
  have hforced_iff : ∀ n ∈ F.take nd,
      argForced (getP env n) = ((getP env n).code != PCode.missing) := by
    intro n hn
    obtain ⟨p, hp, hpv⟩ := hb n hn
    have hgp : getP env n = p := by simp [getP, hp]
    rw [hgp]
    cases hc : p.code with
    | missing => simp [argForced, hc]
    | expr e => simp [argForced, hc, hpv]
  refine ⟨env2, _, _, heq, List.filter_congr hforced_iff, ?_, ?_, ?_⟩
  · exact (hnd.sublist (List.take_sublist nd F)).filter _
  · intro n hn hnm
    obtain ⟨p, hp, hpv⟩ := hb n hn
    have hgp : getP env n = p := by simp [getP, hp]
    obtain ⟨e, hc⟩ : ∃ e, p.code = PCode.expr e := by
      cases hc : p.code with
      | missing => rw [hgp, hc] at hnm; exact absurd rfl hnm
      | expr e => exact ⟨e, rfl⟩
    constructor
    · rw [List.mem_filter]
      refine ⟨hn, ?_⟩
      rw [hgp, argForced, hc, hpv]
    · have hread := hin n hn
      rw [hgp] at hread
      rw [readPromise, hread]
      cases hfv : forcedValue evalC e p with
      | shim tv cl =>
        refine ⟨tv, ?_⟩
        simp only [argAfter, hc, hfv]
      | base b =>
        refine ⟨RValue.base b, ?_⟩
        simp only [argAfter, hc, hfv]
  · intro n hn
    have hnt : n ∉ F.take nd :=
      fun hc => List.disjoint_take_drop hnd (le_refl nd) hc hn
    exact ⟨fun hc => hnt (List.mem_filter.mp hc).1, hout n hnt⟩

/-- C6 witness: the three-formal frame `envEx3` with two dispatch
arguments, all promises fresh. -/
theorem c6_witness :
    ((["x", "y", "z"] : List String).Nodup ∧
      (∀ n ∈ (["x", "y", "z"] : List String).take 2,
        ∃ p, lookupEnv envEx3 n = some p ∧ p.value = none)) ∧
    (∃ env2 classes args,
      buildLoop objDex evalCex 2 ["x", "y", "z"] 0 envEx3 =
        some (env2, classes, args,
          ((["x", "y", "z"] : List String).take 2).filter
            (fun n => argForced (getP envEx3 n))) ∧
      ((["x", "y", "z"] : List String).take 2).filter
          (fun n => argForced (getP envEx3 n)) =
        ((["x", "y", "z"] : List String).take 2).filter
          (fun n => (getP envEx3 n).code != PCode.missing) ∧
      (((["x", "y", "z"] : List String).take 2).filter
        (fun n => argForced (getP envEx3 n))).Nodup ∧
      (∀ n ∈ (["x", "y", "z"] : List String).take 2,
        (getP envEx3 n).code ≠ PCode.missing →
        n ∈ ((["x", "y", "z"] : List String).take 2).filter
          (fun n => argForced (getP envEx3 n)) ∧
        ∃ v, readPromise evalCex env2 n = some (v, false)) ∧
      (∀ n ∈ (["x", "y", "z"] : List String).drop 2,
        n ∉ ((["x", "y", "z"] : List String).take 2).filter
          (fun n => argForced (getP envEx3 n)) ∧
        lookupEnv env2 n = lookupEnv envEx3 n)) :=
  ⟨⟨by decide, by
    intro n hn
    rcases List.mem_cons.mp hn with rfl | hn
    · exact ⟨{ code := PCode.expr 1, value := none }, rfl, rfl⟩
    · rcases List.mem_cons.mp hn with rfl | hn
      · exact ⟨{ code := PCode.expr 2, value := none }, rfl, rfl⟩
      · simp at hn⟩,
    c6_dispatch_args_forced_exactly_once objDex evalCex 2 ["x", "y", "z"] envEx3
      (by decide)
      (by
        intro n hn
        rcases List.mem_cons.mp hn with rfl | hn
        · exact ⟨{ code := PCode.expr 1, value := none }, rfl, rfl⟩
        · rcases List.mem_cons.mp hn with rfl | hn
          · exact ⟨{ code := PCode.expr 2, value := none }, rfl, rfl⟩
          · simp at hn)⟩

end MethodDispatch
